import Mathlib

/-
Formal model of the XRL backend (app.py): the zone classifier (render_xrl),
the link normalizer (fix_link), and the browser-side passes of the screenshot
pipeline (render_page, hide_other_elements). DOM documents are modelled as
rose forests of attribute-carrying nodes with unique node ids; BeautifulSoup
extraction is modelled as id-directed destructive removal over those forests.
-/

/- ## URL model (urllib.parse)

A model of urlparse / urljoin from the Python standard library, for URLs of
the shape scheme://netloc/path (query and fragment are carried as part of the
path; parameters are not modelled). -/

/-- Characters allowed in a URL scheme: letters, digits, plus, minus, dot. -/
def isSchemeChar (c : Char) : Bool :=
  c.isAlphanum || c = '+' || c = '-' || c = '.'

/-- Scan for a scheme delimiter: accumulates scheme characters until a colon.
Returns the scheme and the remainder, or none if no valid scheme exists. -/
def splitSchemeAux (acc : List Char) : List Char → Option (List Char × List Char)
  | [] => none
  | c :: rest =>
    if c = ':' then some (acc.reverse, rest)
    else if isSchemeChar c then splitSchemeAux (c :: acc) rest
    else none

/-- Split a leading scheme from a URL, as urlparse does: the scheme must start
with a letter and consist of scheme characters up to the first colon. -/
def splitScheme (s : List Char) : Option (List Char × List Char) :=
  match s with
  | [] => none
  | c :: _ => if c.isAlpha then splitSchemeAux [] s else none

/-- Does this character end the netloc portion of a URL. -/
def isNetlocEnd (c : Char) : Bool :=
  c = '/' || c = '?' || c = '#'

/-- Parsed URL components: optional scheme, optional netloc, rest of the URL. -/
structure UrlParts where
  scheme : Option (List Char)
  netloc : Option (List Char)
  path : List Char
  deriving DecidableEq, Repr

/-- Model of urlparse restricted to scheme, netloc and path: a netloc is
present exactly when, after the optional scheme, the URL starts with two
slashes; it extends to the next slash, question mark or hash. -/
def parseUrl (s : List Char) : UrlParts :=
  let p := match splitScheme s with
    | some (sch, rest) => (some sch, rest)
    | none => (none, s)
  match p.2 with
  | '/' :: '/' :: r =>
    ⟨p.1, some (r.takeWhile (fun c => !isNetlocEnd c)), r.dropWhile (fun c => !isNetlocEnd c)⟩
  | _ => ⟨p.1, none, p.2⟩

/-- Reassemble URL components, as urlunparse does. -/
def unparseUrl (u : UrlParts) : List Char :=
  (match u.scheme with | some s => s ++ [':'] | none => []) ++
    (match u.netloc with | some n => '/' :: '/' :: n | none => []) ++ u.path

/-- Python truthiness of urlparse(link).netloc: a netloc is present and
nonempty. -/
def hasNetloc (link : String) : Bool :=
  match (parseUrl link.toList).netloc with
  | some nl => !nl.isEmpty
  | none => false

/-- Split a path into slash-separated segments. -/
def splitSegsAux (cur : List Char) : List Char → List (List Char)
  | [] => [cur.reverse]
  | c :: r => if c = '/' then cur.reverse :: splitSegsAux [] r else splitSegsAux (c :: cur) r

/-- Segments of a path: splitting "/a/b" yields the empty segment, a, b. -/
def splitSegs (p : List Char) : List (List Char) :=
  splitSegsAux [] p

/-- Join segments back with slashes. -/
def joinSegs : List (List Char) → List Char
  | [] => []
  | [s] => s
  | s :: r => s ++ '/' :: joinSegs r

/-- The urljoin segment-resolution loop: double-dot pops the last resolved
segment, single dot is dropped, anything else is appended; the accumulator is
kept reversed. -/
def resolveSegsAux (acc : List (List Char)) : List (List Char) → List (List Char)
  | [] => acc.reverse
  | s :: r =>
    if s = ['.', '.'] then resolveSegsAux (acc.drop 1) r
    else if s = ['.'] then resolveSegsAux acc r
    else resolveSegsAux (s :: acc) r

/-- Resolve dot segments, appending a trailing empty segment when the path
ends in a dot segment, as the urljoin loop does. -/
def resolveSegs (segs : List (List Char)) : List (List Char) :=
  let res := resolveSegsAux [] segs
  match segs.getLast? with
  | some s => if s = ['.'] || s = ['.', '.'] then res ++ [[]] else res
  | none => res

/-- Model of urljoin base link: a link carrying its own scheme different from
the base's is returned unchanged; a link with a netloc keeps it and inherits
the base scheme; otherwise the link path is resolved against the base path
(absolute paths replace it, relative paths are merged against the base
directory), with dot-segment resolution. -/
def urljoin (base link : String) : String :=
  let b := parseUrl base.toList
  let l := parseUrl link.toList
  let scheme := match l.scheme with | some s => some s | none => b.scheme
  if scheme ≠ b.scheme then link
  else
    match l.netloc with
    | some nl =>
      if nl.isEmpty then String.mk (unparseUrl ⟨scheme, b.netloc, l.path⟩)
      else String.mk (unparseUrl ⟨scheme, some nl, l.path⟩)
    | none =>
      if l.path.isEmpty then base
      else
        let segs := match l.path with
          | '/' :: _ => splitSegs l.path
          | _ => (splitSegs b.path).dropLast ++ splitSegs l.path
        let path := joinSegs (resolveSegs segs)
        String.mk (unparseUrl ⟨scheme, b.netloc, if path.isEmpty then ['/'] else path⟩)

/-- Model of the helper fix_link in render_xrl (app.py lines 504-520): if the
link already has a network location it is returned unchanged, otherwise it is
joined against the base URL. -/
def fix_link (link : String) (base_url : String) : String :=
  if hasNetloc link then link else urljoin base_url link

/- ## DOM model (BeautifulSoup documents)

Nodes carry a unique id (standing for Python object identity), a tag name,
the class attribute (a token list), the rel attribute (a token list), the
remaining string-valued attributes, and text content. A forest is either
empty or a node with its children followed by its siblings; a tree is a node
paired with its children. -/

structure NodeData where
  id : Nat
  tag : String
  classes : List String
  rel : List String
  attrs : List (String × String)
  text : String
  deriving DecidableEq, Repr

inductive HForest where
  | nil
  | cons (data : NodeData) (children : HForest) (sibs : HForest)
  deriving DecidableEq, Repr

structure HTreeS where
  data : NodeData
  children : HForest
  deriving DecidableEq, Repr

/-- Node ids of a forest in document (preorder) order. -/
def idsF : HForest → List Nat
  | .nil => []
  | .cons d c t => d.id :: (idsF c ++ idsF t)

/-- Node ids of a tree in document order. -/
def idsT (t : HTreeS) : List Nat :=
  t.data.id :: idsF t.children

/-- Node ids of a list of trees, in order. -/
def idsL : List HTreeS → List Nat
  | [] => []
  | t :: ts => idsT t ++ idsL ts

/-- Ids of the nodes matching a predicate, in document order: the model of a
find_all snapshot. -/
def findAllF (p : NodeData → Bool) : HForest → List Nat
  | .nil => []
  | .cons d c t => (if p d then [d.id] else []) ++ findAllF p c ++ findAllF p t

/-- Like findAllF over a list of trees (the tree roots included). -/
def findAllL (p : NodeData → Bool) : List HTreeS → List Nat
  | [] => []
  | t :: ts => (if p t.data then [t.data.id] else []) ++ findAllF p t.children ++ findAllL p ts

/-- Remove the maximal subtrees matching a predicate. -/
def pruneF (p : NodeData → Bool) : HForest → HForest
  | .nil => .nil
  | .cons d c t => if p d then pruneF p t else .cons d (pruneF p c) (pruneF p t)

/-- Ids of nodes lying in some matching subtree: a matching node, or any node
below a matching ancestor. -/
def underF (p : NodeData → Bool) : HForest → List Nat
  | .nil => []
  | .cons d c t => (if p d then d.id :: idsF c else underF p c) ++ underF p t

/-- Model of element.extract() directed by a node id: detach the subtree
rooted at the first node with that id, returning it and the forest without
it. -/
def removeForest (i : Nat) : HForest → Option (HTreeS × HForest)
  | .nil => none
  | .cons d c t =>
    if d.id = i then some (⟨d, c⟩, t)
    else
      match removeForest i c with
      | some (ex, c2) => some (ex, .cons d c2 t)
      | none =>
        match removeForest i t with
        | some (ex, t2) => some (ex, .cons d c t2)
        | none => none

/-- Like removeForest, over a list of already extracted trees (a nested match
may be extracted out of an earlier extracted tree). -/
def removeTreeL (i : Nat) : List HTreeS → Option (HTreeS × List HTreeS)
  | [] => none
  | t :: ts =>
    if t.data.id = i then some (t, ts)
    else
      match removeForest i t.children with
      | some (ex, c2) => some (ex, ⟨t.data, c2⟩ :: ts)
      | none =>
        match removeTreeL i ts with
        | some (ex, ts2) => some (ex, t :: ts2)
        | none => none

/-- One step of the extraction list comprehension: extract the element with
the given id from the soup if it is still there, else from inside the
already-collected results (where a previously extracted ancestor may hold
it), appending the extracted tree to the results. -/
def extractStep (st : List HTreeS × HForest) (i : Nat) : List HTreeS × HForest :=
  match removeForest i st.2 with
  | some (ex, soup2) => (st.1 ++ [ex], soup2)
  | none =>
    match removeTreeL i st.1 with
    | some (ex, res2) => (res2 ++ [ex], st.2)
    | none => st

/-- Model of a whole extraction pass over the soup, e.g.
xrl_head = [element.extract() for element in soup.find_all(class_='XRL-head')]:
the matches are snapshotted first, then extracted one by one. -/
def extractAll (p : NodeData → Bool) (cs : HForest) : List HTreeS × HForest :=
  (findAllF p cs).foldl extractStep ([], cs)

/-- The class attribute contains the given token (bs4 find_all(class_=c)). -/
def clsOf (c : String) (d : NodeData) : Bool :=
  d.classes.contains c

/-- The tag name equals the given name (bs4 find_all(name)). -/
def tagOf (tg : String) (d : NodeData) : Bool :=
  d.tag == tg

/-- Route one extracted link tag: to style_list when its rel attribute
contains stylesheet, else appended to head_list (app.py lines 567-572). -/
def routeLink (ex : HTreeS) (p : List HTreeS × List HTreeS) : List HTreeS × List HTreeS :=
  if ex.data.rel.contains "stylesheet" then (p.1 ++ [ex], p.2) else (p.1, p.2 ++ [ex])

/-- One step of the link loop: extract by id from the soup or from inside the
already routed lists, then route the extracted tag. -/
def linkStep (st : (List HTreeS × List HTreeS) × HForest) (i : Nat) :
    (List HTreeS × List HTreeS) × HForest :=
  match removeForest i st.2 with
  | some (ex, soup2) => (routeLink ex st.1, soup2)
  | none =>
    match removeTreeL i st.1.1 with
    | some (ex, sl2) => (routeLink ex (sl2, st.1.2), st.2)
    | none =>
      match removeTreeL i st.1.2 with
      | some (ex, hl2) => (routeLink ex (st.1.1, hl2), st.2)
      | none => st

/-- The link extraction loop of render_xrl (app.py lines 567-572): snapshot
all link tags, then extract each, routing it to style_list or head_list. -/
def linkPhase (cs : HForest) : (List HTreeS × List HTreeS) × HForest :=
  (findAllF (tagOf "link") cs).foldl linkStep (([], []), cs)

/- ## Zone Classifier (render_xrl, app.py lines 480-584) -/

/-- Classifier output, with the field names returned by render_xrl. -/
structure Output where
  xrl_main : List HTreeS
  xrl_head : List HTreeS
  xrl_below : List HTreeS
  xrl_right : List HTreeS
  xrl_left : List HTreeS
  head_list : List HTreeS
  footer_list : List HTreeS
  style_list : List HTreeS
  script_list : List HTreeS
  deriving DecidableEq, Repr

/-- Extraction stage 1 (app.py line 545): xrl_ignore and the soup after it.
The extracted list is discarded by the source, never returned. -/
def igE (cs : HForest) : List HTreeS × HForest :=
  extractAll (clsOf "XRL-ignore") cs

/-- Extraction stage 2 (line 547): xrl_head. -/
def hdE (cs : HForest) : List HTreeS × HForest :=
  extractAll (clsOf "XRL-head") (igE cs).2

/-- Extraction stage 3 (line 549): xrl_left. -/
def lfE (cs : HForest) : List HTreeS × HForest :=
  extractAll (clsOf "XRL-left") (hdE cs).2

/-- Extraction stage 4 (line 551): xrl_right. -/
def rtE (cs : HForest) : List HTreeS × HForest :=
  extractAll (clsOf "XRL-right") (lfE cs).2

/-- Extraction stage 5 (line 553): xrl_main. -/
def mnE (cs : HForest) : List HTreeS × HForest :=
  extractAll (clsOf "XRL-main") (rtE cs).2

/-- Extraction stage 6 (line 555): xrl_below. -/
def bwE (cs : HForest) : List HTreeS × HForest :=
  extractAll (clsOf "XRL-below") (mnE cs).2

/-- Auxiliary stage (line 564): head tags, out of the remaining soup. -/
def hdT (cs : HForest) : List HTreeS × HForest :=
  extractAll (tagOf "head") (bwE cs).2

/-- Auxiliary stage (line 565): footer tags. -/
def ftT (cs : HForest) : List HTreeS × HForest :=
  extractAll (tagOf "footer") (hdT cs).2

/-- Auxiliary stage (line 566): script tags. -/
def scT (cs : HForest) : List HTreeS × HForest :=
  extractAll (tagOf "script") (ftT cs).2

/-- Auxiliary stage (lines 567-572): the link loop, yielding style_list, the
extra head_list entries, and the final remaining soup. -/
def lkT (cs : HForest) : (List HTreeS × List HTreeS) × HForest :=
  linkPhase (scT cs).2

/-- Node data of the synthetic legacy wrapper div (app.py lines 559-560),
with a caller-supplied fresh id. -/
def legacyData (lid : Nat) : NodeData :=
  ⟨lid, "div", ["XRL-below"], [], [("id", "XRL-computed-legacy")], ""⟩

/-- The legacy wrapper tree: the wrapper div holding the soup document node
with whatever the extraction stages left in it. In the source the soup is
appended into the wrapper before the auxiliary stages run; since those stages
search only the soup's descendants and match neither the wrapper div nor the
document node, wrapping the post-auxiliary soup yields the same tree. -/
def legacyTree (lid : Nat) (soup : HTreeS) : HTreeS :=
  ⟨legacyData lid, .cons soup.data (lkT soup.children).2 .nil⟩

/-- The extraction and list-building block of render_xrl (app.py lines
544-584): zone extraction in source order (ignore, head, left, right, main,
below), the main overflow split, the legacy wrapper as last below entry, and
the auxiliary lists pulled from the remaining soup. -/
def classifyZones (lid : Nat) (soup : HTreeS) : Output :=
  let cs := soup.children
  { xrl_main := (mnE cs).1.take 1
    xrl_head := (hdE cs).1
    xrl_below := (mnE cs).1.drop 1 ++ (bwE cs).1 ++ [legacyTree lid soup]
    xrl_right := (rtE cs).1
    xrl_left := (lfE cs).1
    head_list := (hdT cs).1 ++ (lkT cs).1.2
    footer_list := (ftT cs).1
    style_list := (lkT cs).1.1
    script_list := (scT cs).1 }

/-- Rewrite the text of the first title tag in document order, if any. -/
def rewriteTitleF : HForest → Option HForest
  | .nil => none
  | .cons d c t =>
    if d.tag == "title" then
      some (.cons { d with text := "XRL View - " ++ d.text } c t)
    else
      match rewriteTitleF c with
      | some c2 => some (.cons d c2 t)
      | none =>
        match rewriteTitleF t with
        | some t2 => some (.cons d c t2)
        | none => none

/-- The title statement of render_xrl (app.py line 529). When a title exists
its string becomes "XRL View - " plus the original; when none exists the
source evaluates soup.title.string on soup.title = None and raises
AttributeError, modelled as an error result. -/
def titleStep (soup : HTreeS) : Except String HTreeS :=
  match rewriteTitleF soup.children with
  | some cs => .ok ⟨soup.data, cs⟩
  | none => .error "AttributeError"

/-- A fresh base tag pointing at the resolved target URL. -/
def newBase (bid : Nat) (url : String) : NodeData :=
  ⟨bid, "base", [], [], [("href", url)], ""⟩

/-- Insert the base tag as first child of the first head tag, if any. -/
def insertBaseF (bid : Nat) (url : String) : HForest → Option HForest
  | .nil => none
  | .cons d c t =>
    if d.tag == "head" then some (.cons d (.cons (newBase bid url) .nil c) t)
    else
      match insertBaseF bid url c with
      | some c2 => some (.cons d c2 t)
      | none =>
        match insertBaseF bid url t with
        | some t2 => some (.cons d c t2)
        | none => none

/-- The base-tag statement of render_xrl (app.py lines 532-533): insert a base
tag as first child of soup.find('head'). When no head exists the source
inserts into a dangling new head tag that is never attached, so the document
is unchanged. -/
def baseStep (bid : Nat) (url : String) (soup : HTreeS) : HTreeS :=
  match insertBaseF bid url soup.children with
  | some cs => ⟨soup.data, cs⟩
  | none => soup

/-- Look up a string-valued attribute. -/
def getAttr (a : String) : List (String × String) → Option String
  | [] => none
  | kv :: r => if kv.1 == a then some kv.2 else getAttr a r

/-- Replace the value of a string-valued attribute (append if absent). -/
def setAttr (a v : String) : List (String × String) → List (String × String)
  | [] => [(a, v)]
  | kv :: r => if kv.1 == a then (a, v) :: r else kv :: setAttr a v r

/-- The per-tag body of the link-fixing loop (app.py lines 536-542): on
script, link, img and meta tags, fix src if present, else href if present,
else content when it is nonempty and itemprop equals image. -/
def fixNode (url : String) (d : NodeData) : NodeData :=
  if d.tag == "script" || d.tag == "link" || d.tag == "img" || d.tag == "meta" then
    match getAttr "src" d.attrs with
    | some v => { d with attrs := setAttr "src" (fix_link v url) d.attrs }
    | none =>
      match getAttr "href" d.attrs with
      | some v => { d with attrs := setAttr "href" (fix_link v url) d.attrs }
      | none =>
        match getAttr "content" d.attrs with
        | some v =>
          if v ≠ "" && getAttr "itemprop" d.attrs == some "image" then
            { d with attrs := setAttr "content" (fix_link v url) d.attrs }
          else d
        | none => d
  else d

/-- Map a node transformation over a forest. -/
def mapForest (f : NodeData → NodeData) : HForest → HForest
  | .nil => .nil
  | .cons d c t => .cons (f d) (mapForest f c) (mapForest f t)

/-- The link-fixing loop over the whole soup. Matching depends only on the
tag name and the loop moves no node, so the iteration is a structural map. -/
def fixLinks (url : String) (soup : HTreeS) : HTreeS :=
  ⟨soup.data, mapForest (fixNode url) soup.children⟩

/-- Python str.startswith on character lists. -/
def startsWithL : List Char → List Char → Bool
  | [], _ => true
  | _, [] => false
  | c :: cr, d :: dr => c == d && startsWithL cr dr

/-- Model of render_xrl (app.py lines 480-584) from the parsed soup onward:
default the scheme to http, rewrite the title (raising when there is none),
insert the base tag, fix resource links, then run the extraction block. The
two synthetic nodes (base tag, legacy wrapper) receive caller-supplied ids,
standing for the fresh Python objects new_tag creates. -/
def render_xrl (bid lid : Nat) (url : String) (doc : HTreeS) : Except String Output :=
  let url2 := if startsWithL "http".toList url.toList then url else "http://" ++ url
  match titleStep doc with
  | .error e => .error e
  | .ok d1 => .ok (classifyZones lid (fixLinks url2 (baseStep bid url2 d1)))

/- ## Browser-side model (selenium page state)

Nodes of a loaded page carry the marker classes, an inline style (display and
visibility, the only properties the source writes), and read-only layout
readings (offsetWidth, offsetHeight, computed visibility) standing for what
the browser reports at the time of the call. -/

structure SData where
  id : Nat
  tag : String
  classes : List String
  offsetWidth : Nat
  offsetHeight : Nat
  computedVisibility : String
  styleDisplay : Option String
  styleVisibility : Option String
  deriving DecidableEq, Repr

inductive SForest where
  | nil
  | cons (data : SData) (children : SForest) (sibs : SForest)
  deriving DecidableEq, Repr

/-- The seven marker classes of XRL_CLASSES (app.py lines 34-42). -/
def XRL_CLASSES : List String :=
  ["XRL-main", "XRL-head", "XRL-below", "XRL-right", "XRL-left", "XRL-ignore", "XRL-element"]

/-- The element carries at least one class of the given list. -/
def hasAnyClass (l : List String) (d : SData) : Bool :=
  l.any (fun c => d.classes.contains c)

/-- The show script of hide_other_elements (app.py lines 346-355): visibility
is set to visible; the display branch reads the misspelled property
style.diplay, which is undefined and never equal to the string none, so
display is always reassigned its current value and stays unchanged. -/
def showData (d : SData) : SData :=
  { d with styleVisibility := some "visible" }

/-- The hide script of hide_other_elements (app.py lines 362-370). -/
def hideData (d : SData) : SData :=
  { d with styleVisibility := some "hidden", styleDisplay := some "none" }

/-- Tags excluded from the show XPath (app.py line 341). -/
def excludedTag (d : SData) : Bool :=
  d.tag == "script" || d.tag == "style" || d.tag == "head" || d.tag == "meta"

/-- Does the forest contain a node with the given id. -/
def containsIdS (i : Nat) : SForest → Bool
  | .nil => false
  | .cons d c t => d.id == i || containsIdS i c || containsIdS i t

/-- Recursive body of hide_other_elements: inTarget marks nodes strictly
inside the target's subtree. Descendants are shown (excluded tags apart) and
then hidden when marker-classed; a proper ancestor (a node whose children
contain the target) is shown; the target itself and every node outside its
subtree and ancestor path are untouched. -/
def hideAux (tid : Nat) (inTarget : Bool) : SForest → SForest
  | .nil => .nil
  | .cons d c t =>
    if inTarget then
      let d1 := if excludedTag d then d else showData d
      let d2 := if hasAnyClass XRL_CLASSES d1 then hideData d1 else d1
      .cons d2 (hideAux tid true c) (hideAux tid true t)
    else if d.id == tid then
      .cons d (hideAux tid true c) (hideAux tid false t)
    else if containsIdS tid c then
      .cons (if excludedTag d then d else showData d) (hideAux tid false c) (hideAux tid false t)
    else
      .cons d c (hideAux tid false t)

/-- Model of hide_other_elements (app.py lines 327-370) acting on the page
for one target element, given by id. The show set is the XPath union of the
target's descendants and ancestors (so not the target itself), restricted to
non-excluded tags; the hide set is the CSS search for the seven marker
classes scoped to the target element, hence only the target's descendants. -/
def hide_other_elements (tid : Nat) (roots : SForest) : SForest :=
  hideAux tid false roots

/-- Find the node data for an id. -/
def getByIdS (i : Nat) : SForest → Option SData
  | .nil => none
  | .cons d c t =>
    if d.id == i then some d
    else
      match getByIdS i c with
      | some r => some r
      | none => getByIdS i t

/- ## Visibility Resolver (the script of app.py lines 399-424) -/

/-- The five zone marker classes of the resolver's querySelectorAll. -/
def zoneClasses : List String :=
  ["XRL-head", "XRL-left", "XRL-right", "XRL-main", "XRL-below"]

/-- The element is ineffectively visible: zero rendered width or height, or
computed visibility hidden. -/
def inefVis (d : SData) : Bool :=
  d.offsetWidth == 0 || d.offsetHeight == 0 || d.computedVisibility == "hidden"

/-- All zone-marked elements of the page in document order, each paired with
its ancestor chain, nearest parent first: the traversal underlying the
querySelectorAll loop and its parentElement walk. -/
def zoneWalk (anc : List SData) : SForest → List (SData × List SData)
  | .nil => []
  | .cons d c t =>
    (if hasAnyClass zoneClasses d then [(d, anc)] else []) ++
      zoneWalk (d :: anc) c ++ zoneWalk anc t

/-- Per-element body of the resolver loop: when the element is ineffectively
visible, walk its parents upward adding each not-yet-collected ineffectively
visible parent, then add the element itself if not yet collected. -/
def collectOne (st : List Nat) (pr : SData × List SData) : List Nat :=
  if inefVis pr.1 then
    let st1 := pr.2.foldl
      (fun s p => if s.contains p.id then s else if inefVis p then s ++ [p.id] else s) st
    if st1.contains pr.1.id then st1 else st1 ++ [pr.1.id]
  else st

/-- The elementsToUpdate set built by the resolver script. -/
def collectUpd (roots : SForest) : List Nat :=
  (zoneWalk [] roots).foldl collectOne []

/-- Force every collected element into the layout: display flex, visibility
visible. -/
def applyUpd (s : List Nat) : SForest → SForest
  | .nil => .nil
  | .cons d c t =>
    .cons
      (if s.contains d.id then
        { d with styleDisplay := some "flex", styleVisibility := some "visible" }
      else d)
      (applyUpd s c) (applyUpd s t)

/-- The visibility-resolving pass: collect the zone-marked elements and their
ineffectively visible ancestors, then force them visible. -/
def visibilityResolve (roots : SForest) : SForest :=
  applyUpd (collectUpd roots) roots

/-- Every zone-marked element of the page is effectively visible. -/
def allZoneVisible (roots : SForest) : Bool :=
  (zoneWalk [] roots).all (fun pr => !inefVis pr.1)

/- ## Zone Snapshotter manifest (render_page, app.py lines 432-477) -/

/-- A zone element as the capture loop sees it: its rendered size at capture
time (measured after hide_other_elements has isolated it). -/
structure RElem where
  width : Nat
  height : Nat
  deriving DecidableEq, Repr

/-- One manifest descriptor: url of the written screenshot and the rendered
size. -/
structure ZoneShot where
  url : String
  width : Nat
  height : Nat
  deriving DecidableEq, Repr

/-- The split of the XRL-main elements in render_page (app.py lines 432-440):
the data dict maps XRL_main to the first main element and XRL_below to the
remaining main elements followed by the XRL-below elements. -/
def renderZoneSplit (main_list below_found : List RElem) : List RElem × List RElem :=
  (main_list.take 1, main_list.drop 1 ++ below_found)

/-- The inner capture loop of render_page for one zone key (app.py lines
457-477): enumerate the zone's elements; for each, after isolation, append a
descriptor named by the element's position exactly when both rendered
dimensions are nonzero; zero-size elements are skipped without error. -/
def zoneImages (base key : String) (elems : List RElem) : List ZoneShot :=
  elems.enum.foldl
    (fun acc p =>
      if p.2.width != 0 && p.2.height != 0 then
        acc ++ [⟨base ++ "/images/" ++ key ++ "-" ++ Nat.repr p.1 ++ ".png", p.2.width, p.2.height⟩]
      else acc)
    []

/-- The manifest assembled by render_page: the unconditional full_page entry
followed by the five zone lists, with the main overflow split applied. -/
def render_page (base : String) (fullW fullH : Nat)
    (heads lefts rights mains belows : List RElem) : List (String × List ZoneShot) :=
  let split := renderZoneSplit mains belows
  let data := [("XRL_head", heads), ("XRL_left", lefts), ("XRL_right", rights),
               ("XRL_main", split.1), ("XRL_below", split.2)]
  ("full_page", [⟨base ++ "/images/full_page.png", fullW, fullH⟩]) ::
    data.map (fun kv => (kv.1, zoneImages base kv.1 kv.2))

/- ## Observation helpers and concrete documents -/

/-- One extraction's effect on the soup alone: an id not present leaves the
soup unchanged (the element is then extracted from inside an earlier
extracted tree instead). -/
def soupStep (cs : HForest) (i : Nat) : HForest :=
  match removeForest i cs with
  | some p => p.2
  | none => cs

/-- The evolution of the soup alone under a sequence of extractions by id. -/
def soupFold (l : List Nat) (cs : HForest) : HForest :=
  l.foldl soupStep cs

/-- The ids of the document's nodes that lie in no XRL-ignore subtree: the
document node itself plus the forest with the maximal ignore-marked subtrees
removed. -/
def nonIgnoreNodeIds (soup : HTreeS) : List Nat :=
  soup.data.id :: idsF (pruneF (clsOf "XRL-ignore") soup.children)

/-- The node ids found in the five zone lists of a classifier output,
including the legacy wrapper carried as the last below entry. -/
def zonesLegacyIds (out : Output) : List Nat :=
  idsL (out.xrl_head ++ out.xrl_left ++ out.xrl_right ++ out.xrl_main ++ out.xrl_below)

/-- The node ids found anywhere in a classifier output: the five zone lists,
the legacy wrapper, and the four auxiliary lists. -/
def allOutputIds (out : Output) : List Nat :=
  zonesLegacyIds out ++
    idsL (out.head_list ++ out.footer_list ++ out.style_list ++ out.script_list)

/-- Text of the first title tag of a forest, in document order. -/
def firstTitleTextF : HForest → Option String
  | .nil => none
  | .cons d c t =>
    if d.tag == "title" then some d.text
    else
      match firstTitleTextF c with
      | some s => some s
      | none => firstTitleTextF t

/-- Text of the first title tag found in a list of trees. -/
def firstTitleTextL : List HTreeS → Option String
  | [] => none
  | t :: ts =>
    if t.data.tag == "title" then some t.data.text
    else
      match firstTitleTextF t.children with
      | some s => some s
      | none => firstTitleTextL ts

/-- Shorthand for a DOM node with only id, tag and classes. -/
def nd (i : Nat) (tg : String) (cls : List String) : NodeData :=
  ⟨i, tg, cls, [], [], ""⟩

/-- A document with a title and a script in the body, no marker classes:
document(0), html(1), head(2), title(3) with text Foo, body(4), div(5),
script(6). -/
def docPlainScript : HTreeS :=
  ⟨⟨0, "[document]", [], [], [], ""⟩,
    .cons (nd 1 "html" [])
      (.cons (nd 2 "head" [])
        (.cons ⟨3, "title", [], [], [], "Foo"⟩ .nil .nil)
        (.cons (nd 4 "body" [])
          (.cons (nd 5 "div" []) (.cons (nd 6 "script" []) .nil .nil) .nil)
          .nil))
      .nil⟩

/-- Like docPlainScript, but the div (id 5) is marked XRL-head, so the script
(id 6) sits inside a zone-marked element. -/
def docZoneScript : HTreeS :=
  ⟨⟨0, "[document]", [], [], [], ""⟩,
    .cons (nd 1 "html" [])
      (.cons (nd 2 "head" [])
        (.cons ⟨3, "title", [], [], [], "Foo"⟩ .nil .nil)
        (.cons (nd 4 "body" [])
          (.cons (nd 5 "div" ["XRL-head"]) (.cons (nd 6 "script" []) .nil .nil) .nil)
          .nil))
      .nil⟩

/-- A document with no title tag anywhere: document(0), html(1), body(2). -/
def docNoTitle : HTreeS :=
  ⟨⟨0, "[document]", [], [], [], ""⟩,
    .cons (nd 1 "html" []) (.cons (nd 2 "body" []) .nil .nil) .nil⟩

/-- A soup for witnesses: document(0), html(1), body(2) containing an
XRL-ignore div(3) with a child p(4) that is marked XRL-main, two XRL-main
divs (5, 6), and a script(7). -/
def soupWitness : HTreeS :=
  ⟨⟨0, "[document]", [], [], [], ""⟩,
    .cons (nd 1 "html" [])
      (.cons (nd 2 "body" [])
        (.cons (nd 3 "div" ["XRL-ignore"])
          (.cons (nd 4 "p" ["XRL-main"]) .nil .nil)
          (.cons (nd 5 "div" ["XRL-main"]) .nil
            (.cons (nd 6 "div" ["XRL-main"]) .nil
              (.cons (nd 7 "script" []) .nil .nil))))
        .nil)
      .nil⟩

/-- Shorthand for a visible unstyled page node. -/
def sd (i : Nat) (tg : String) (cls : List String) : SData :=
  ⟨i, tg, cls, 50, 50, "visible", none, none⟩

/-- A page for the isolation pass: body(0) holding the capture target div(1)
marked XRL-main and a sibling div(2) marked XRL-head, everything visible. -/
def pageTwoZones : SForest :=
  .cons (sd 0 "body" [])
    (.cons (sd 1 "div" ["XRL-main"]) .nil
      (.cons (sd 2 "div" ["XRL-head"]) .nil .nil))
    .nil

/-- A fully visible page with one zone-marked element, for the resolver
witness. -/
def pageVisible : SForest :=
  .cons (sd 10 "body" [])
    (.cons (sd 11 "div" ["XRL-main"]) (.cons (sd 12 "p" []) .nil .nil) .nil)
    .nil

/-- Decidable equality for results of the fallible render path. -/
instance instDecEqExcept {e a : Type} [DecidableEq e] [DecidableEq a] :
    DecidableEq (Except e a) := fun x y =>
  match x, y with
  | .error u, .error v =>
    if h : u = v then isTrue (by rw [h]) else isFalse (by intro hc; cases hc; exact h rfl)
  | .ok u, .ok v =>
    if h : u = v then isTrue (by rw [h]) else isFalse (by intro hc; cases hc; exact h rfl)
  | .error _, .ok _ => isFalse (by intro hc; cases hc)
  | .ok _, .error _ => isFalse (by intro hc; cases hc)


/- ## Support lemmas: id conservation under extraction -/

theorem idsL_append (a b : List HTreeS) : idsL (a ++ b) = idsL a ++ idsL b := by
  induction a with
  | nil => simp [idsL]
  | cons t ts ih => simp [idsL, ih]

theorem removeForest_ids (i : Nat) :
    ∀ (cs : HForest) (ex : HTreeS) (cs2 : HForest), removeForest i cs = some (ex, cs2) →
      ((idsT ex : List Nat) : Multiset Nat) + ↑(idsF cs2) = ↑(idsF cs) := by
  intro cs
  induction cs with
  | nil => intro ex cs2 h; simp [removeForest] at h
  | cons d c t ihc iht =>
    intro ex cs2 h
    simp only [removeForest] at h
    split at h
    · rename_i hid
      simp only [Option.some.injEq, Prod.mk.injEq] at h
      obtain ⟨rfl, rfl⟩ := h
      simp only [idsT, idsF, ← Multiset.cons_coe, ← Multiset.coe_add, ← Multiset.singleton_add]
      abel
    · rename_i hid
      cases hc : removeForest i c with
      | some p =>
        obtain ⟨ex0, c2⟩ := p
        rw [hc] at h
        simp only [Option.some.injEq, Prod.mk.injEq] at h
        obtain ⟨rfl, rfl⟩ := h
        have hm := ihc _ _ hc
        simp only [idsF, ← Multiset.cons_coe, ← Multiset.coe_add, ← Multiset.singleton_add, ← hm]
        abel
      | none =>
        rw [hc] at h
        cases ht : removeForest i t with
        | some q =>
          obtain ⟨ex0, t2⟩ := q
          rw [ht] at h
          simp only [Option.some.injEq, Prod.mk.injEq] at h
          obtain ⟨rfl, rfl⟩ := h
          have hm := iht _ _ ht
          simp only [idsF, ← Multiset.cons_coe, ← Multiset.coe_add, ← Multiset.singleton_add, ← hm]
          abel
        | none => rw [ht] at h; simp at h

theorem removeForest_not_mem (i : Nat) :
    ∀ (cs : HForest), i ∉ idsF cs → removeForest i cs = none := by
  intro cs
  induction cs with
  | nil => intro h; simp [removeForest]
  | cons d c t ihc iht =>
    intro h
    simp only [idsF, List.mem_cons, List.mem_append] at h
    push_neg at h
    obtain ⟨h1, h2, h3⟩ := h
    simp only [removeForest]
    rw [if_neg (by omega), ihc h2, iht h3]

theorem removeTreeL_ids (i : Nat) :
    ∀ (ts : List HTreeS) (ex : HTreeS) (ts2 : List HTreeS), removeTreeL i ts = some (ex, ts2) →
      ((idsT ex : List Nat) : Multiset Nat) + ↑(idsL ts2) = ↑(idsL ts) := by
  intro ts
  induction ts with
  | nil => intro ex ts2 h; simp [removeTreeL] at h
  | cons t0 ts ih =>
    intro ex ts2 h
    simp only [removeTreeL] at h
    split at h
    · rename_i hid
      simp only [Option.some.injEq, Prod.mk.injEq] at h
      obtain ⟨rfl, rfl⟩ := h
      simp only [idsL, ← Multiset.coe_add]
    · rename_i hid
      cases hc : removeForest i t0.children with
      | some p =>
        obtain ⟨ex0, c2⟩ := p
        rw [hc] at h
        simp only [Option.some.injEq, Prod.mk.injEq] at h
        obtain ⟨rfl, rfl⟩ := h
        have hm := removeForest_ids i _ _ _ hc
        simp only [idsL, idsT, idsF, ← Multiset.cons_coe, ← Multiset.coe_add,
          ← Multiset.singleton_add] at hm ⊢
        rw [← hm]
        abel
      | none =>
        rw [hc] at h
        cases hl : removeTreeL i ts with
        | some q =>
          obtain ⟨ex0, ts3⟩ := q
          rw [hl] at h
          simp only [Option.some.injEq, Prod.mk.injEq] at h
          obtain ⟨rfl, rfl⟩ := h
          have hm := ih _ _ hl
          simp only [idsL, idsT, idsF, ← Multiset.cons_coe, ← Multiset.coe_add,
            ← Multiset.singleton_add] at hm ⊢
          rw [← hm]
          abel
        | none => rw [hl] at h; simp at h

theorem extractStep_ids (st : List HTreeS × HForest) (i : Nat) :
    ((idsL (extractStep st i).1 : List Nat) : Multiset Nat) + ↑(idsF (extractStep st i).2)
      = ↑(idsL st.1) + ↑(idsF st.2) := by
  unfold extractStep
  cases hs : removeForest i st.2 with
  | some p =>
    obtain ⟨ex, soup2⟩ := p
    have hm := removeForest_ids i _ _ _ hs
    simp only [idsL_append, idsL, List.append_nil, ← Multiset.coe_add, ← hm]
    abel
  | none =>
    cases hr : removeTreeL i st.1 with
    | some q =>
      obtain ⟨ex, res2⟩ := q
      have hm := removeTreeL_ids i _ _ _ hr
      simp only [idsL_append, idsL, List.append_nil, ← Multiset.coe_add, ← hm]
      abel
    | none => rfl

theorem extractFold_ids (l : List Nat) :
    ∀ (st : List HTreeS × HForest),
      ((idsL (l.foldl extractStep st).1 : List Nat) : Multiset Nat)
          + ↑(idsF (l.foldl extractStep st).2)
        = ↑(idsL st.1) + ↑(idsF st.2) := by
  induction l with
  | nil => intro st; rfl
  | cons i l ih =>
    intro st
    simp only [List.foldl_cons]
    rw [ih (extractStep st i), extractStep_ids]

theorem extractAll_ids (p : NodeData → Bool) (cs : HForest) :
    ((idsL (extractAll p cs).1 : List Nat) : Multiset Nat) + ↑(idsF (extractAll p cs).2)
      = ↑(idsF cs) := by
  unfold extractAll
  rw [extractFold_ids]
  simp [idsL]

theorem soupStep_not_mem (cs : HForest) (i : Nat) (h : i ∉ idsF cs) : soupStep cs i = cs := by
  unfold soupStep
  rw [removeForest_not_mem i cs h]

theorem soupStep_inside (d : NodeData) (c t : HForest) (i : Nat)
    (hne : i ≠ d.id) (hnt : i ∉ idsF t) :
    soupStep (.cons d c t) i = .cons d (soupStep c i) t := by
  unfold soupStep
  simp only [removeForest]
  rw [if_neg (by omega), removeForest_not_mem i t hnt]
  cases hc : removeForest i c with
  | some p => rfl
  | none => rfl

theorem soupStep_after (d : NodeData) (c t : HForest) (i : Nat)
    (hne : i ≠ d.id) (hnc : i ∉ idsF c) :
    soupStep (.cons d c t) i = .cons d c (soupStep t i) := by
  unfold soupStep
  simp only [removeForest]
  rw [if_neg (by omega), removeForest_not_mem i c hnc]
  cases ht : removeForest i t with
  | some p => rfl
  | none => rfl

theorem extractStep_soup (st : List HTreeS × HForest) (i : Nat) :
    (extractStep st i).2 = soupStep st.2 i := by
  unfold extractStep soupStep
  cases hs : removeForest i st.2 with
  | some p => rfl
  | none =>
    cases hr : removeTreeL i st.1 with
    | some q => rfl
    | none => rfl

theorem linkStep_soup (st : (List HTreeS × List HTreeS) × HForest) (i : Nat) :
    (linkStep st i).2 = soupStep st.2 i := by
  unfold linkStep soupStep
  cases hs : removeForest i st.2 with
  | some p => rfl
  | none =>
    cases h1 : removeTreeL i st.1.1 with
    | some q => rfl
    | none =>
      cases h2 : removeTreeL i st.1.2 with
      | some q => rfl
      | none => rfl

theorem extractFold_soup (l : List Nat) :
    ∀ (st : List HTreeS × HForest), (l.foldl extractStep st).2 = soupFold l st.2 := by
  induction l with
  | nil => intro st; rfl
  | cons i l ih =>
    intro st
    simp only [List.foldl_cons, soupFold] at ih ⊢
    rw [ih (extractStep st i), extractStep_soup]

theorem linkFold_soup (l : List Nat) :
    ∀ (st : (List HTreeS × List HTreeS) × HForest), (l.foldl linkStep st).2 = soupFold l st.2 := by
  induction l with
  | nil => intro st; rfl
  | cons i l ih =>
    intro st
    simp only [List.foldl_cons, soupFold] at ih ⊢
    rw [ih (linkStep st i), linkStep_soup]

theorem findAllF_subset (p : NodeData → Bool) :
    ∀ (cs : HForest) (i : Nat), i ∈ findAllF p cs → i ∈ idsF cs := by
  intro cs
  induction cs with
  | nil => intro i h; simp [findAllF] at h
  | cons d c t ihc iht =>
    intro i h
    simp only [findAllF, List.mem_append] at h
    simp only [idsF, List.mem_cons, List.mem_append]
    rcases h with (h | h) | h
    · left
      rcases hp : p d with _ | _ <;> rw [hp] at h <;> simp at h
      omega
    · right; left; exact ihc i h
    · right; right; exact iht i h

theorem pruneF_sublist (p : NodeData → Bool) :
    ∀ (cs : HForest), (idsF (pruneF p cs)).Sublist (idsF cs) := by
  intro cs
  induction cs with
  | nil => simp [pruneF]
  | cons d c t ihc iht =>
    simp only [pruneF]
    split
    · rename_i hp
      simp only [idsF]
      exact (iht.trans (List.sublist_append_right _ _)).cons _
    · rename_i hp
      simp only [idsF]
      exact (ihc.append iht).cons₂ _

theorem soupFold_no_touch (l : List Nat) :
    ∀ (cs : HForest), (∀ i ∈ l, i ∉ idsF cs) → soupFold l cs = cs := by
  induction l with
  | nil => intro cs h; rfl
  | cons i l ih =>
    intro cs h
    simp only [soupFold, List.foldl_cons] at ih ⊢
    rw [soupStep_not_mem cs i (h i (by simp))]
    exact ih cs (fun j hj => h j (by simp [hj]))

theorem soupFold_inside (l : List Nat) :
    ∀ (d : NodeData) (c t : HForest), (∀ i ∈ l, i ≠ d.id ∧ i ∉ idsF t) →
      soupFold l (.cons d c t) = .cons d (soupFold l c) t := by
  induction l with
  | nil => intro d c t h; rfl
  | cons i l ih =>
    intro d c t h
    obtain ⟨hne, hnt⟩ := h i (by simp)
    simp only [soupFold, List.foldl_cons] at ih ⊢
    rw [soupStep_inside d c t i hne hnt]
    exact ih d (soupStep c i) t (fun j hj => h j (by simp [hj]))

theorem soupFold_after (l : List Nat) :
    ∀ (d : NodeData) (c t : HForest), (∀ i ∈ l, i ≠ d.id ∧ i ∉ idsF c) →
      soupFold l (.cons d c t) = .cons d c (soupFold l t) := by
  induction l with
  | nil => intro d c t h; rfl
  | cons i l ih =>
    intro d c t h
    obtain ⟨hne, hnc⟩ := h i (by simp)
    simp only [soupFold, List.foldl_cons] at ih ⊢
    rw [soupStep_after d c t i hne hnc]
    exact ih d c (soupStep t i) (fun j hj => h j (by simp [hj]))

theorem soupStep_root (d : NodeData) (c t : HForest) :
    soupStep (.cons d c t) d.id = t := by
  unfold soupStep
  simp [removeForest]

theorem soupFold_append (a b : List Nat) (cs : HForest) :
    soupFold (a ++ b) cs = soupFold b (soupFold a cs) := by
  unfold soupFold
  exact List.foldl_append _ _ _ _

theorem soupFold_findAll (p : NodeData → Bool) :
    ∀ (cs : HForest), (idsF cs).Nodup → soupFold (findAllF p cs) cs = pruneF p cs := by
  intro cs
  induction cs with
  | nil => intro h; rfl
  | cons d c t ihc iht =>
    intro h
    simp only [idsF, List.nodup_cons, List.nodup_append, List.mem_append] at h
    push_neg at h
    obtain ⟨⟨hd1, hd2⟩, hnc, hnt, hdisj⟩ := h
    rcases hp : p d with _ | _
    · -- p d = false
      have hfa : findAllF p (HForest.cons d c t) = findAllF p c ++ findAllF p t := by
        simp [findAllF, hp]
      rw [hfa, soupFold_append]
      rw [soupFold_inside _ d c t
        (fun i hi => ⟨fun he => hd1 (he ▸ findAllF_subset p c i hi),
          fun ht => hdisj (findAllF_subset p c i hi) ht⟩)]
      rw [ihc hnc]
      rw [soupFold_after _ d (pruneF p c) t
        (fun i hi => ⟨fun he => hd2 (he ▸ findAllF_subset p t i hi),
          fun hc2 => hdisj ((pruneF_sublist p c).subset hc2) (findAllF_subset p t i hi)⟩)]
      rw [iht hnt]
      simp [pruneF, hp]
    · -- p d = true
      have hfa : findAllF p (HForest.cons d c t) = d.id :: (findAllF p c ++ findAllF p t) := by
        simp [findAllF, hp]
      rw [hfa]
      show soupFold (d.id :: (findAllF p c ++ findAllF p t)) (HForest.cons d c t) = _
      have : soupFold (d.id :: (findAllF p c ++ findAllF p t)) (HForest.cons d c t)
          = soupFold (findAllF p c ++ findAllF p t) t := by
        simp only [soupFold, List.foldl_cons]
        rw [show soupStep (HForest.cons d c t) d.id = t from soupStep_root d c t]
      rw [this, soupFold_append]
      rw [soupFold_no_touch _ t (fun i hi ht => hdisj (findAllF_subset p c i hi) ht)]
      rw [iht hnt]
      simp [pruneF, hp]

theorem extractAll_soup (p : NodeData → Bool) (cs : HForest) (h : (idsF cs).Nodup) :
    (extractAll p cs).2 = pruneF p cs := by
  unfold extractAll
  rw [extractFold_soup, soupFold_findAll p cs h]

theorem linkPhase_soup (cs : HForest) (h : (idsF cs).Nodup) :
    (linkPhase cs).2 = pruneF (tagOf "link") cs := by
  unfold linkPhase
  rw [linkFold_soup, soupFold_findAll _ cs h]

theorem pruneF_nodup (p : NodeData → Bool) (cs : HForest) (h : (idsF cs).Nodup) :
    (idsF (pruneF p cs)).Nodup :=
  h.sublist (pruneF_sublist p cs)

theorem findAllF_pruneF_self (p : NodeData → Bool) :
    ∀ (cs : HForest), findAllF p (pruneF p cs) = [] := by
  intro cs
  induction cs with
  | nil => rfl
  | cons d c t ihc iht =>
    simp only [pruneF]
    rcases hp : p d with _ | _
    · rw [if_neg (by simp [hp])]
      simp [findAllF, hp, ihc, iht]
    · rw [if_pos (by simp [hp])]
      exact iht

theorem findAllF_pruneF_sub (p q : NodeData → Bool) :
    ∀ (cs : HForest) (i : Nat), i ∈ findAllF q (pruneF p cs) → i ∈ findAllF q cs := by
  intro cs
  induction cs with
  | nil => intro i h; simp [pruneF, findAllF] at h
  | cons d c t ihc iht =>
    intro i h
    simp only [pruneF] at h
    simp only [findAllF, List.mem_append]
    split at h
    · right; exact iht i h
    · simp only [findAllF, List.mem_append] at h
      rcases h with (h | h) | h
      · left; left; exact h
      · left; right; exact ihc i h
      · right; exact iht i h

theorem prune_under_ids (p : NodeData → Bool) :
    ∀ (cs : HForest),
      ((idsF (pruneF p cs) : List Nat) : Multiset Nat) + ↑(underF p cs) = ↑(idsF cs) := by
  intro cs
  induction cs with
  | nil => rfl
  | cons d c t ihc iht =>
    simp only [pruneF, underF, idsF]
    rcases hp : p d with _ | _
    · rw [if_neg (by simp [hp]), if_neg (by simp [hp])]
      simp only [idsF, ← Multiset.cons_coe, ← Multiset.coe_add, ← Multiset.singleton_add,
        ← ihc, ← iht]
      abel
    · rw [if_pos (by simp [hp]), if_pos (by simp [hp])]
      simp only [idsF, ← Multiset.cons_coe, ← Multiset.coe_add, ← Multiset.singleton_add, ← iht]
      abel

theorem underF_subset (p : NodeData → Bool) :
    ∀ (cs : HForest) (x : Nat), x ∈ underF p cs → x ∈ idsF cs := by
  intro cs
  induction cs with
  | nil => intro x h; simp [underF] at h
  | cons d c t ihc iht =>
    intro x h
    simp only [underF, List.mem_append] at h
    simp only [idsF, List.mem_cons, List.mem_append]
    rcases h with h | h
    · split at h
      · simp only [List.mem_cons] at h
        rcases h with h | h
        · left; exact h
        · right; left; exact h
      · right; left; exact ihc x h
    · right; right; exact iht x h

theorem routeLink_ids (ex : HTreeS) (pr : List HTreeS × List HTreeS) :
    ((idsL (routeLink ex pr).1 : List Nat) : Multiset Nat) + ↑(idsL (routeLink ex pr).2)
      = ↑(idsT ex) + ↑(idsL pr.1) + ↑(idsL pr.2) := by
  unfold routeLink
  split
  · simp only [idsL_append, idsL, List.append_nil, ← Multiset.coe_add]
    abel
  · simp only [idsL_append, idsL, List.append_nil, ← Multiset.coe_add]
    abel

theorem linkStep_ids (st : (List HTreeS × List HTreeS) × HForest) (i : Nat) :
    ((idsL (linkStep st i).1.1 : List Nat) : Multiset Nat) + ↑(idsL (linkStep st i).1.2)
        + ↑(idsF (linkStep st i).2)
      = ↑(idsL st.1.1) + ↑(idsL st.1.2) + ↑(idsF st.2) := by
  unfold linkStep
  cases hs : removeForest i st.2 with
  | some p =>
    obtain ⟨ex, soup2⟩ := p
    have hm := removeForest_ids i _ _ _ hs
    have hr := routeLink_ids ex st.1
    simp only []
    calc ((idsL (routeLink ex st.1).1 : List Nat) : Multiset Nat)
          + ↑(idsL (routeLink ex st.1).2) + ↑(idsF soup2)
        = ↑(idsT ex) + ↑(idsL st.1.1) + ↑(idsL st.1.2) + ↑(idsF soup2) := by rw [← hr]; try abel
      _ = ↑(idsL st.1.1) + ↑(idsL st.1.2) + ↑(idsF st.2) := by rw [← hm]; try abel
  | none =>
    cases h1 : removeTreeL i st.1.1 with
    | some q =>
      obtain ⟨ex, sl2⟩ := q
      have hm := removeTreeL_ids i _ _ _ h1
      have hr := routeLink_ids ex (sl2, st.1.2)
      simp only []
      calc ((idsL (routeLink ex (sl2, st.1.2)).1 : List Nat) : Multiset Nat)
            + ↑(idsL (routeLink ex (sl2, st.1.2)).2) + ↑(idsF st.2)
          = ↑(idsT ex) + ↑(idsL sl2) + ↑(idsL st.1.2) + ↑(idsF st.2) := by rw [← hr]; try abel
        _ = ↑(idsL st.1.1) + ↑(idsL st.1.2) + ↑(idsF st.2) := by rw [← hm]; try abel
    | none =>
      cases h2 : removeTreeL i st.1.2 with
      | some q =>
        obtain ⟨ex, hl2⟩ := q
        have hm := removeTreeL_ids i _ _ _ h2
        have hr := routeLink_ids ex (st.1.1, hl2)
        simp only []
        calc ((idsL (routeLink ex (st.1.1, hl2)).1 : List Nat) : Multiset Nat)
              + ↑(idsL (routeLink ex (st.1.1, hl2)).2) + ↑(idsF st.2)
            = ↑(idsT ex) + ↑(idsL st.1.1) + ↑(idsL hl2) + ↑(idsF st.2) := by rw [← hr]; try abel
          _ = ↑(idsL st.1.1) + ↑(idsL st.1.2) + ↑(idsF st.2) := by rw [← hm]; try abel
      | none => rfl

theorem linkFold_ids (l : List Nat) :
    ∀ (st : (List HTreeS × List HTreeS) × HForest),
      ((idsL (l.foldl linkStep st).1.1 : List Nat) : Multiset Nat)
          + ↑(idsL (l.foldl linkStep st).1.2) + ↑(idsF (l.foldl linkStep st).2)
        = ↑(idsL st.1.1) + ↑(idsL st.1.2) + ↑(idsF st.2) := by
  induction l with
  | nil => intro st; rfl
  | cons i l ih =>
    intro st
    simp only [List.foldl_cons]
    rw [ih (linkStep st i), linkStep_ids]

theorem linkPhase_ids (cs : HForest) :
    ((idsL (linkPhase cs).1.1 : List Nat) : Multiset Nat) + ↑(idsL (linkPhase cs).1.2)
        + ↑(idsF (linkPhase cs).2)
      = ↑(idsF cs) := by
  unfold linkPhase
  rw [linkFold_ids]
  simp [idsL]

theorem outputIds_shape (lid : Nat) (rootd : NodeData) (rest : HForest)
    (hd lf rt mn bw hT fT sT sl he : List HTreeS) :
    ((allOutputIds
        { xrl_main := mn.take 1
          xrl_head := hd
          xrl_below := mn.drop 1 ++ bw ++ [⟨legacyData lid, .cons rootd rest .nil⟩]
          xrl_right := rt
          xrl_left := lf
          head_list := hT ++ he
          footer_list := fT
          style_list := sl
          script_list := sT } : List Nat) : Multiset Nat)
      = ↑(idsL hd) + ↑(idsL lf) + ↑(idsL rt) + ↑(idsL mn) + ↑(idsL bw)
        + ({lid} + {rootd.id} + ↑(idsF rest))
        + (↑(idsL hT) + ↑(idsL he) + ↑(idsL fT) + ↑(idsL sl) + ↑(idsL sT)) := by
  have hmn : ((idsL (mn.take 1) : List Nat) : Multiset Nat) + ↑(idsL (mn.drop 1))
      = ↑(idsL mn) := by
    rw [Multiset.coe_add, ← idsL_append, List.take_append_drop]
  simp only [allOutputIds, zonesLegacyIds, idsL_append, idsL, idsT, idsF, legacyData,
    List.append_nil, ← Multiset.cons_coe, ← Multiset.coe_add, ← Multiset.singleton_add]
  rw [← hmn]
  abel

set_option maxHeartbeats 1000000 in
theorem classify_ids (lid : Nat) (soup : HTreeS) (h : (idsF soup.children).Nodup) :
    ((allOutputIds (classifyZones lid soup) : List Nat) : Multiset Nat)
      = ↑(lid :: soup.data.id :: idsF (pruneF (clsOf "XRL-ignore") soup.children)) := by
  have hs1 : (igE soup.children).2 = pruneF (clsOf "XRL-ignore") soup.children :=
    extractAll_soup _ _ h
  have e2 : ((idsL (hdE soup.children).1 : List Nat) : Multiset Nat)
      + ↑(idsF (hdE soup.children).2) = ↑(idsF (igE soup.children).2) := extractAll_ids _ _
  have e3 : ((idsL (lfE soup.children).1 : List Nat) : Multiset Nat)
      + ↑(idsF (lfE soup.children).2) = ↑(idsF (hdE soup.children).2) := extractAll_ids _ _
  have e4 : ((idsL (rtE soup.children).1 : List Nat) : Multiset Nat)
      + ↑(idsF (rtE soup.children).2) = ↑(idsF (lfE soup.children).2) := extractAll_ids _ _
  have e5 : ((idsL (mnE soup.children).1 : List Nat) : Multiset Nat)
      + ↑(idsF (mnE soup.children).2) = ↑(idsF (rtE soup.children).2) := extractAll_ids _ _
  have e6 : ((idsL (bwE soup.children).1 : List Nat) : Multiset Nat)
      + ↑(idsF (bwE soup.children).2) = ↑(idsF (mnE soup.children).2) := extractAll_ids _ _
  have e7 : ((idsL (hdT soup.children).1 : List Nat) : Multiset Nat)
      + ↑(idsF (hdT soup.children).2) = ↑(idsF (bwE soup.children).2) := extractAll_ids _ _
  have e8 : ((idsL (ftT soup.children).1 : List Nat) : Multiset Nat)
      + ↑(idsF (ftT soup.children).2) = ↑(idsF (hdT soup.children).2) := extractAll_ids _ _
  have e9 : ((idsL (scT soup.children).1 : List Nat) : Multiset Nat)
      + ↑(idsF (scT soup.children).2) = ↑(idsF (ftT soup.children).2) := extractAll_ids _ _
  have hlk : lkT soup.children = linkPhase (scT soup.children).2 := rfl
  have eL := linkPhase_ids (scT soup.children).2
  rw [← hlk] at eL
  have hcz : classifyZones lid soup =
      { xrl_main := (mnE soup.children).1.take 1
        xrl_head := (hdE soup.children).1
        xrl_below := (mnE soup.children).1.drop 1 ++ (bwE soup.children).1 ++
          [⟨legacyData lid, .cons soup.data (lkT soup.children).2 .nil⟩]
        xrl_right := (rtE soup.children).1
        xrl_left := (lfE soup.children).1
        head_list := (hdT soup.children).1 ++ (lkT soup.children).1.2
        footer_list := (ftT soup.children).1
        style_list := (lkT soup.children).1.1
        script_list := (scT soup.children).1 } := rfl
  rw [hcz, outputIds_shape, ← hs1]
  simp only [← Multiset.cons_coe, ← Multiset.singleton_add]
  rw [← e2, ← e3, ← e4, ← e5, ← e6, ← e7, ← e8, ← e9, ← eL]
  abel

theorem findAllF_pruneF_nil (p q : NodeData → Bool) (cs : HForest)
    (h : findAllF q cs = []) : findAllF q (pruneF p cs) = [] :=
  List.eq_nil_iff_forall_not_mem.2
    (fun x hx => List.eq_nil_iff_forall_not_mem.1 h x (findAllF_pruneF_sub p q cs x hx))

theorem stage_soups (soup : HTreeS) (h : (idsF soup.children).Nodup) :
    findAllF (tagOf "head") (lkT soup.children).2 = []
    ∧ findAllF (tagOf "footer") (lkT soup.children).2 = []
    ∧ findAllF (tagOf "script") (lkT soup.children).2 = []
    ∧ findAllF (tagOf "link") (lkT soup.children).2 = [] := by
  have hs1 : (igE soup.children).2 = pruneF (clsOf "XRL-ignore") soup.children :=
    extractAll_soup _ _ h
  have hn1 : (idsF (igE soup.children).2).Nodup := by
    rw [hs1]; exact pruneF_nodup _ _ h
  have hs2 : (hdE soup.children).2 = pruneF (clsOf "XRL-head") (igE soup.children).2 :=
    extractAll_soup _ _ hn1
  have hn2 : (idsF (hdE soup.children).2).Nodup := by
    rw [hs2]; exact pruneF_nodup _ _ hn1
  have hs3 : (lfE soup.children).2 = pruneF (clsOf "XRL-left") (hdE soup.children).2 :=
    extractAll_soup _ _ hn2
  have hn3 : (idsF (lfE soup.children).2).Nodup := by
    rw [hs3]; exact pruneF_nodup _ _ hn2
  have hs4 : (rtE soup.children).2 = pruneF (clsOf "XRL-right") (lfE soup.children).2 :=
    extractAll_soup _ _ hn3
  have hn4 : (idsF (rtE soup.children).2).Nodup := by
    rw [hs4]; exact pruneF_nodup _ _ hn3
  have hs5 : (mnE soup.children).2 = pruneF (clsOf "XRL-main") (rtE soup.children).2 :=
    extractAll_soup _ _ hn4
  have hn5 : (idsF (mnE soup.children).2).Nodup := by
    rw [hs5]; exact pruneF_nodup _ _ hn4
  have hs6 : (bwE soup.children).2 = pruneF (clsOf "XRL-below") (mnE soup.children).2 :=
    extractAll_soup _ _ hn5
  have hn6 : (idsF (bwE soup.children).2).Nodup := by
    rw [hs6]; exact pruneF_nodup _ _ hn5
  have hs7 : (hdT soup.children).2 = pruneF (tagOf "head") (bwE soup.children).2 :=
    extractAll_soup _ _ hn6
  have hn7 : (idsF (hdT soup.children).2).Nodup := by
    rw [hs7]; exact pruneF_nodup _ _ hn6
  have hs8 : (ftT soup.children).2 = pruneF (tagOf "footer") (hdT soup.children).2 :=
    extractAll_soup _ _ hn7
  have hn8 : (idsF (ftT soup.children).2).Nodup := by
    rw [hs8]; exact pruneF_nodup _ _ hn7
  have hs9 : (scT soup.children).2 = pruneF (tagOf "script") (ftT soup.children).2 :=
    extractAll_soup _ _ hn8
  have hn9 : (idsF (scT soup.children).2).Nodup := by
    rw [hs9]; exact pruneF_nodup _ _ hn8
  have hlk : lkT soup.children = linkPhase (scT soup.children).2 := rfl
  have hsL : (lkT soup.children).2 = pruneF (tagOf "link") (scT soup.children).2 := by
    rw [hlk]; exact linkPhase_soup _ hn9
  have hHead7 : findAllF (tagOf "head") (hdT soup.children).2 = [] := by
    rw [hs7]; exact findAllF_pruneF_self _ _
  have hHead8 : findAllF (tagOf "head") (ftT soup.children).2 = [] := by
    rw [hs8]; exact findAllF_pruneF_nil _ _ _ hHead7
  have hHead9 : findAllF (tagOf "head") (scT soup.children).2 = [] := by
    rw [hs9]; exact findAllF_pruneF_nil _ _ _ hHead8
  have hFoot8 : findAllF (tagOf "footer") (ftT soup.children).2 = [] := by
    rw [hs8]; exact findAllF_pruneF_self _ _
  have hFoot9 : findAllF (tagOf "footer") (scT soup.children).2 = [] := by
    rw [hs9]; exact findAllF_pruneF_nil _ _ _ hFoot8
  have hScr9 : findAllF (tagOf "script") (scT soup.children).2 = [] := by
    rw [hs9]; exact findAllF_pruneF_self _ _
  refine ⟨?_, ?_, ?_, ?_⟩
  · rw [hsL]; exact findAllF_pruneF_nil _ _ _ hHead9
  · rw [hsL]; exact findAllF_pruneF_nil _ _ _ hFoot9
  · rw [hsL]; exact findAllF_pruneF_nil _ _ _ hScr9
  · rw [hsL]; exact findAllF_pruneF_self _ _

theorem applyUpd_nil : ∀ (roots : SForest), applyUpd [] roots = roots := by
  intro roots
  induction roots with
  | nil => rfl
  | cons d c t ihc iht => simp [applyUpd, ihc, iht]

theorem collect_nil : ∀ (prs : List (SData × List SData)) (st : List Nat),
    (∀ pr ∈ prs, inefVis pr.1 = false) → prs.foldl collectOne st = st := by
  intro prs
  induction prs with
  | nil => intro st h; rfl
  | cons pr prs ih =>
    intro st h
    simp only [List.foldl_cons]
    rw [show collectOne st pr = st by unfold collectOne; rw [h pr (by simp)]; rfl]
    exact ih st (fun q hq => h q (by simp [hq]))

theorem foldl_images (base key : String) :
    ∀ (l : List (Nat × RElem)) (acc : List ZoneShot),
      l.foldl
          (fun acc p =>
            if p.2.width != 0 && p.2.height != 0 then
              acc ++ [⟨base ++ "/images/" ++ key ++ "-" ++ Nat.repr p.1 ++ ".png",
                p.2.width, p.2.height⟩]
            else acc)
          acc
        = acc ++ (l.filter (fun p => p.2.width != 0 && p.2.height != 0)).map
            (fun p => ⟨base ++ "/images/" ++ key ++ "-" ++ Nat.repr p.1 ++ ".png",
              p.2.width, p.2.height⟩) := by
  intro l
  induction l with
  | nil => intro acc; simp
  | cons p l ih =>
    intro acc
    simp only [List.foldl_cons, List.filter_cons]
    rcases hc : (p.2.width != 0 && p.2.height != 0) with _ | _
    · rw [if_neg (by simp [hc])]
      simp only [hc, ih]
      simp
    · rw [if_pos (by simp [hc])]
      simp only [hc, ih]
      simp

/- ## Claim theorems -/


set_option maxHeartbeats 1000000

/-- Claim C1, counterexample: the claim as stated is false on the code. For
the concrete document docPlainScript (a titled page whose body holds a div
containing a script, no marker classes), render_xrl succeeds, yet the node
ids found in the five zone lists plus the legacy wrapper are not a
permutation of the non-ignore node ids of the document: the script tag (and
the head tag with the title) are moved into the auxiliary lists and are
missing from every zone and from the legacy wrapper. -/
theorem partition_completeness_counterexample :
    ((render_xrl 90 91 "http://e.com" docPlainScript).toOption.map
        (fun out => decide (List.Perm (zonesLegacyIds out) (nonIgnoreNodeIds docPlainScript))))
      = some false := by
  decide

/-- Claim C1, amended: for every soup with distinct node ids and a fresh
legacy id, the five zone lists, the legacy wrapper and the four auxiliary
lists together contain exactly the non-ignore nodes of the document plus the
one synthetic legacy wrapper node, each exactly once (the id multisets are a
permutation, and no id is duplicated). -/
theorem partition_completeness_with_aux (lid : Nat) (soup : HTreeS)
    (h : (idsT soup).Nodup) (hl : lid ∉ idsT soup) :
    List.Perm (allOutputIds (classifyZones lid soup)) (lid :: nonIgnoreNodeIds soup)
    ∧ (allOutputIds (classifyZones lid soup)).Nodup := by
  have hroot : soup.data.id ∉ idsF soup.children := by
    simp only [idsT, List.nodup_cons] at h
    exact h.1
  have hcs : (idsF soup.children).Nodup := by
    simp only [idsT, List.nodup_cons] at h
    exact h.2
  have hperm : List.Perm (allOutputIds (classifyZones lid soup))
      (lid :: soup.data.id :: idsF (pruneF (clsOf "XRL-ignore") soup.children)) :=
    Multiset.coe_eq_coe.1 (classify_ids lid soup hcs)
  have hperm2 : List.Perm (allOutputIds (classifyZones lid soup))
      (lid :: nonIgnoreNodeIds soup) := by
    simpa [nonIgnoreNodeIds] using hperm
  have hlru : lid ≠ soup.data.id ∧ lid ∉ idsF soup.children := by
    simp only [idsT, List.mem_cons] at hl
    push_neg at hl
    exact hl
  have htgt : (lid :: nonIgnoreNodeIds soup).Nodup := by
    simp only [nonIgnoreNodeIds, List.nodup_cons, List.mem_cons]
    push_neg at hroot ⊢
    refine ⟨⟨hlru.1, fun hx => hlru.2 ((pruneF_sublist _ _).subset hx)⟩,
      fun hx => hroot ((pruneF_sublist _ _).subset hx), pruneF_nodup _ _ hcs⟩
  exact ⟨hperm2, (hperm2.nodup_iff).2 htgt⟩

/-- Claim C1, witness: the amended partition statement holds on the concrete
soupWitness document with fresh legacy id 99. -/
theorem partition_completeness_with_aux_witness :
    List.Perm (allOutputIds (classifyZones 99 soupWitness)) (99 :: nonIgnoreNodeIds soupWitness)
    ∧ (allOutputIds (classifyZones 99 soupWitness)).Nodup :=
  partition_completeness_with_aux 99 soupWitness (by decide) (by decide)

/-- Claim C2: the classifier's xrl_main is the first extracted main-marked
element (at most one entry), the remaining main-marked elements are placed at
the front of xrl_below, before the explicit below-marked elements and the
legacy wrapper, in their extraction (document) order; render_page applies the
same split to its XRL_main and XRL_below lists. -/
theorem main_cardinality (lid : Nat) (soup : HTreeS) (mains belows : List RElem) :
    (classifyZones lid soup).xrl_main.length ≤ 1
    ∧ (classifyZones lid soup).xrl_main = (mnE soup.children).1.take 1
    ∧ (classifyZones lid soup).xrl_below
        = (mnE soup.children).1.drop 1 ++ (bwE soup.children).1 ++ [legacyTree lid soup]
    ∧ (renderZoneSplit mains belows).1.length ≤ 1
    ∧ (renderZoneSplit mains belows).1 = mains.take 1
    ∧ (renderZoneSplit mains belows).2 = mains.drop 1 ++ belows := by
  refine ⟨?_, rfl, rfl, ?_, rfl, rfl⟩
  · rw [show (classifyZones lid soup).xrl_main = (mnE soup.children).1.take 1 from rfl]
    simp only [List.length_take]
    omega
  · simp only [renderZoneSplit, List.length_take]
    omega

/-- Claim C3, code evaluation: on a titled document the title is rewritten to
the XRL View prefix form (visible in the extracted head tag), but on a
document with no title element render_xrl raises AttributeError (line 529
assigns soup.title.string while soup.title is None) instead of setting the
title to the literal XRL View. -/
theorem title_rule_evaluated :
    ((render_xrl 90 91 "http://e.com" docPlainScript).toOption.bind
        (fun out => firstTitleTextL out.head_list)) = some "XRL View - Foo"
    ∧ render_xrl 90 91 "http://e.com" docNoTitle = Except.error "AttributeError" := by
  exact ⟨by decide, by decide⟩

/-- Claim C4: every node lying in an XRL-ignore subtree (an ignore-marked
element or anything below one) appears nowhere in the classifier output: not
in any zone list, not in the legacy wrapper, and not in any auxiliary list. -/
theorem ignore_invariant (lid : Nat) (soup : HTreeS)
    (h : (idsT soup).Nodup) (hl : lid ∉ idsT soup) :
    ∀ x ∈ underF (clsOf "XRL-ignore") soup.children,
      x ∉ allOutputIds (classifyZones lid soup) := by
  intro x hx hmem
  have hroot : soup.data.id ∉ idsF soup.children := by
    simp only [idsT, List.nodup_cons] at h
    exact h.1
  have hcs : (idsF soup.children).Nodup := by
    simp only [idsT, List.nodup_cons] at h
    exact h.2
  have hxc : x ∈ idsF soup.children := underF_subset _ _ x hx
  have hperm : List.Perm (allOutputIds (classifyZones lid soup))
      (lid :: soup.data.id :: idsF (pruneF (clsOf "XRL-ignore") soup.children)) :=
    Multiset.coe_eq_coe.1 (classify_ids lid soup hcs)
  have hmem2 := hperm.mem_iff.1 hmem
  simp only [List.mem_cons] at hmem2
  rcases hmem2 with rfl | rfl | hmem3
  · exact hl (by simp [idsT, hxc])
  · exact hroot hxc
  · have hcount : ((idsF soup.children : List Nat) : Multiset Nat).count x ≤ 1 :=
      Multiset.nodup_iff_count_le_one.1 ((Multiset.coe_nodup).2 hcs) x
    rw [← prune_under_ids (clsOf "XRL-ignore") soup.children, Multiset.count_add] at hcount
    have c1 : 1 ≤ ((idsF (pruneF (clsOf "XRL-ignore") soup.children) : List Nat)
        : Multiset Nat).count x := by
      rw [Multiset.one_le_count_iff_mem]
      simpa using hmem3
    have c2 : 1 ≤ ((underF (clsOf "XRL-ignore") soup.children : List Nat)
        : Multiset Nat).count x := by
      rw [Multiset.one_le_count_iff_mem]
      simpa using hx
    omega

/-- Claim C4, witness: in soupWitness, the ignore-marked div (id 3) and the
main-marked element nested below it (id 4) appear nowhere in the output. -/
theorem ignore_invariant_witness :
    3 ∉ allOutputIds (classifyZones 99 soupWitness)
    ∧ 4 ∉ allOutputIds (classifyZones 99 soupWitness) :=
  ⟨ignore_invariant 99 soupWitness (by decide) (by decide) 3 (by decide),
    ignore_invariant 99 soupWitness (by decide) (by decide) 4 (by decide)⟩


set_option maxHeartbeats 1000000

/-- Claim C5, counterexample: the claim as stated is false on the code. On
the concrete document docZoneScript, where a script tag (id 6) sits inside an
XRL-head-marked div, render_xrl succeeds and the delivered xrl_head zone
still contains that script tag in its subtree — the auxiliary extraction runs
only over the remaining soup, not over the already extracted zones. -/
theorem aux_purity_counterexample :
    ((render_xrl 80 81 "http://e.com" docZoneScript).toOption.map
        (fun out => findAllL (tagOf "script") out.xrl_head)) = some [6] := by
  decide

/-- Claim C5, amended: the auxiliary extraction runs only over the remaining
legacy document. Consequently the legacy wrapper (always the last xrl_below
entry) contains no head, footer, script or link tag anywhere below the
document node, while zone subtrees may retain such tags. -/
theorem aux_purity_legacy_only (lid : Nat) (soup : HTreeS) (h : (idsT soup).Nodup) :
    (classifyZones lid soup).xrl_below.getLast? = some (legacyTree lid soup)
    ∧ findAllF (tagOf "head") (lkT soup.children).2 = []
    ∧ findAllF (tagOf "footer") (lkT soup.children).2 = []
    ∧ findAllF (tagOf "script") (lkT soup.children).2 = []
    ∧ findAllF (tagOf "link") (lkT soup.children).2 = [] := by
  have hcs : (idsF soup.children).Nodup := by
    simp only [idsT, List.nodup_cons] at h
    exact h.2
  obtain ⟨h1, h2, h3, h4⟩ := stage_soups soup hcs
  refine ⟨?_, h1, h2, h3, h4⟩
  rw [show (classifyZones lid soup).xrl_below
      = (mnE soup.children).1.drop 1 ++ (bwE soup.children).1 ++ [legacyTree lid soup] from rfl]
  exact List.getLast?_concat _

/-- Claim C5, witness: the amended statement holds on soupWitness (whose body
holds a script tag), with legacy id 99. -/
theorem aux_purity_legacy_only_witness :
    (classifyZones 99 soupWitness).xrl_below.getLast? = some (legacyTree 99 soupWitness)
    ∧ findAllF (tagOf "head") (lkT soupWitness.children).2 = []
    ∧ findAllF (tagOf "footer") (lkT soupWitness.children).2 = []
    ∧ findAllF (tagOf "script") (lkT soupWitness.children).2 = []
    ∧ findAllF (tagOf "link") (lkT soupWitness.children).2 = [] :=
  aux_purity_legacy_only 99 soupWitness (by decide)

/-- Claim C6: fix_link returns a link unchanged whenever it already carries a
network location (including protocol-relative links, which carry one), and
otherwise resolves it against the base URL with standard relative-URL
resolution; concretely, the absolute path /a/b against http://x.com/p/q gives
http://x.com/a/b, a full URL and a protocol-relative URL come back unchanged,
and the path-relative b/c resolves to http://x.com/p/b/c. -/
theorem link_normalizer_spec :
    (∀ (link base : String), hasNetloc link = true → fix_link link base = link)
    ∧ fix_link "/a/b" "http://x.com/p/q" = "http://x.com/a/b"
    ∧ fix_link "http://y.com/z" "http://x.com/p/q" = "http://y.com/z"
    ∧ fix_link "b/c" "http://x.com/p/q" = "http://x.com/p/b/c"
    ∧ fix_link "//cdn.y.com/z" "http://x.com/p/q" = "//cdn.y.com/z"
    ∧ (∀ (link base : String), hasNetloc link = false → fix_link link base = urljoin base link) := by
  refine ⟨fun l b hn => ?_, by decide, by decide, by decide, by decide, fun l b hn => ?_⟩
  · simp [fix_link, hn]
  · simp [fix_link, hn]

/-- Claim C6, witness: the two quantified parts of the link-normalizer
statement applied at concrete links. -/
theorem link_normalizer_spec_witness :
    fix_link "http://y.com/z" "http://x.com/p/q" = "http://y.com/z"
    ∧ fix_link "/a/b" "http://x.com/p/q" = urljoin "http://x.com/p/q" "/a/b" :=
  ⟨link_normalizer_spec.1 "http://y.com/z" "http://x.com/p/q" (by decide),
    link_normalizer_spec.2.2.2.2.2 "/a/b" "http://x.com/p/q" (by decide)⟩

/-- Claim C7, code evaluation: isolating the XRL-main div (id 1) of
pageTwoZones leaves its marker-classed sibling (id 2) completely untouched —
still visible — because the hide search is scoped to the target's subtree,
while the ancestor body (id 0) only has its visibility set (the display
branch reads the misspelled style.diplay and never changes display). The
claim requires every marker-classed element outside the ancestor path,
anywhere in the page, to be hidden. -/
theorem isolation_evaluated :
    getByIdS 2 (hide_other_elements 1 pageTwoZones) = some (sd 2 "div" ["XRL-head"])
    ∧ getByIdS 0 (hide_other_elements 1 pageTwoZones)
        = some { sd 0 "body" [] with styleVisibility := some "visible" } := by
  exact ⟨by decide, by decide⟩

/-- Claim C8: on a page whose zone-marked elements are all effectively
visible, the visibility-resolving pass collects nothing and mutates nothing,
so applying it twice equals applying it once (and equals the identity). -/
theorem resolver_idempotent (roots : SForest) (h : allZoneVisible roots = true) :
    visibilityResolve roots = roots
    ∧ visibilityResolve (visibilityResolve roots) = visibilityResolve roots := by
  have hall : ∀ pr ∈ zoneWalk [] roots, inefVis pr.1 = false := by
    intro pr hpr
    have h2 : (zoneWalk [] roots).all (fun pr => !inefVis pr.1) = true := h
    have := (List.all_eq_true.1 h2) pr hpr
    simpa using this
  have hc : collectUpd roots = [] := collect_nil _ _ hall
  have h1 : visibilityResolve roots = roots := by
    unfold visibilityResolve
    rw [hc, applyUpd_nil]
  exact ⟨h1, by rw [h1, h1]⟩

/-- Claim C8, witness: the resolver is the identity, and idempotent, on the
concrete fully visible page pageVisible. -/
theorem resolver_idempotent_witness :
    visibilityResolve pageVisible = pageVisible
    ∧ visibilityResolve (visibilityResolve pageVisible) = visibilityResolve pageVisible :=
  resolver_idempotent pageVisible (by decide)

/-- Claim C9: the capture loop appends a manifest descriptor exactly for the
elements whose rendered width and height are both nonzero, named by the
element's position in the zone's full element list; zero-size elements are
silently skipped (the loop is total, no error path exists). -/
theorem zero_size_skip (base key : String) (elems : List RElem) :
    zoneImages base key elems
      = (elems.enum.filter (fun p => p.2.width != 0 && p.2.height != 0)).map
          (fun p => ⟨base ++ "/images/" ++ key ++ "-" ++ Nat.repr p.1 ++ ".png",
            p.2.width, p.2.height⟩) := by
  unfold zoneImages
  rw [foldl_images]
  simp

/-- Claim C10: manifest urls use the element's position in the zone's full
element list, so skipped zero-size elements leave index gaps: a zero-size
element at position 0 makes the zone's only url below-1.png, and a zero-size
element in the middle yields urls head-0.png and head-2.png with no
head-1.png. -/
theorem manifest_index_gaps :
    (zoneImages "http://s" "below" [⟨0, 5⟩, ⟨3, 4⟩]).map (fun e => e.url)
        = ["http://s/images/below-1.png"]
    ∧ (zoneImages "http://s" "head" [⟨2, 2⟩, ⟨0, 1⟩, ⟨3, 3⟩]).map (fun e => e.url)
        = ["http://s/images/head-0.png", "http://s/images/head-2.png"] := by
  exact ⟨by decide, by decide⟩
